import Mathlib

set_option maxRecDepth 8192

/-
Verification development for the self-correcting Lean code/proof synthesis
loop of src/main.py. Python strings are modelled as List Char; the regex
operations of the parser are translated operation by operation into
executable scanning functions; the external collaborators (the LLM agent
and the Lean runner) are modelled as function parameters of the loop.
-/

/-- Converts a string literal to the underlying character list. All program
text is modelled as `List Char`, mirroring Python strings. -/
def strL (s : String) : List Char := s.data

/-- Whitespace class of the regex token backslash-s and of Python strip,
restricted to its ASCII members (Unicode whitespace is irrelevant to the
claims and to the markers the program uses). -/
def isPySpace (c : Char) : Bool :=
  c == ' ' || c == '\t' || c == '\n' || c == '\r' || c == '\x0b' || c == '\x0c'

/-- Word-character class of the regex token backslash-w, restricted to its
ASCII members. -/
def isWordChar (c : Char) : Bool :=
  c.isAlpha || c.isDigit || c == '_'

/-- Python substring test `pat in s` (used at source lines 178 and 181). -/
def containsSub : List Char → List Char → Bool
  | [], pat => pat.isEmpty
  | c :: rest, pat => pat.isPrefixOf (c :: rest) || containsSub rest pat

/-- Case-insensitive prefix test: the marker is given already lower-cased
and each subject character is lower-cased before comparison. This models
re.IGNORECASE matching of the ASCII literals CODE: and PROOF:. -/
def startsWithCI : List Char → List Char → Bool
  | [], _ => true
  | _ :: _, [] => false
  | m :: ms, c :: cs => (Char.toLower c == m) && startsWithCI ms cs

/-- Leftmost case-insensitive occurrence of a marker: returns the text
before the occurrence and the text after the marker, as re.search does for
the literal parts of the patterns at source lines 13-14. -/
def splitFirstCI (marker : List Char) : List Char → Option (List Char × List Char)
  | [] => if marker.isEmpty then some ([], []) else none
  | c :: rest =>
    if startsWithCI marker (c :: rest) then some ([], (c :: rest).drop marker.length)
    else
      match splitFirstCI marker rest with
      | some (pre, post) => some (c :: pre, post)
      | none => none

/-- Python str.strip(): removes leading and trailing whitespace
(source lines 16-17). -/
def pyStrip (s : List Char) : List Char :=
  ((s.dropWhile isPySpace).reverse.dropWhile isPySpace).reverse

/-- Fuel-driven worker for Python str.replace with a nonempty pattern: scans
left to right, replaces every non-overlapping occurrence, and resumes after
the replaced occurrence. The fuel is always instantiated with the length of
the string, which suffices because every step consumes at least one
character. -/
def replaceAllF (pat rep : List Char) : Nat → List Char → List Char
  | _, [] => []
  | 0, s => s
  | fuel + 1, c :: rest =>
    if pat.isPrefixOf (c :: rest) && !pat.isEmpty then
      rep ++ replaceAllF pat rep fuel ((c :: rest).drop pat.length)
    else
      c :: replaceAllF pat rep fuel rest

/-- Python str.replace(pat, rep) with the default count (replace all
occurrences), as used by the template binder at source lines 171-172. For
an empty pattern Python inserts the replacement at every position boundary;
the two placeholder markers are nonempty, but the empty case is still
modelled faithfully. -/
def replaceAll (pat rep s : List Char) : List Char :=
  if pat.isEmpty then rep ++ (s.map (fun c => c :: rep)).flatten
  else replaceAllF pat rep s.length s

/-- Whether the last of the first n characters of s is a newline: used to
decide whether the position after a consumed regex match is a MULTILINE
line start. -/
def lastNl (s : List Char) (n : Nat) : Bool :=
  ((s.take n).getLastD 'a') == '\n'

/-- Fuel-driven worker for re.sub with a pattern anchored at a MULTILINE
line start. The matcher m is invoked only at positions that are at the
start of the string or directly after a newline; on a match of n characters
the replacement is emitted and scanning resumes after the match, exactly as
re.sub does. -/
def scanSubF (m : List Char → Option Nat) (rep : List Char) : Nat → Bool → List Char → List Char
  | _, _, [] => []
  | 0, _, s => s
  | fuel + 1, atStart, c :: rest =>
    match (if atStart then m (c :: rest) else none) with
    | some n =>
      if 0 < n then
        rep ++ scanSubF m rep fuel (lastNl (c :: rest) n) ((c :: rest).drop n)
      else c :: scanSubF m rep fuel (c == '\n') rest
    | none => c :: scanSubF m rep fuel (c == '\n') rest

/-- Line-start-anchored re.sub starting with a given line-start flag. -/
def scanSubGen (m : List Char → Option Nat) (rep : List Char) (atStart : Bool) (s : List Char) : List Char :=
  scanSubF m rep s.length atStart s

/-- Line-start-anchored re.sub over a whole string (position 0 is a line
start). -/
def scanSub (m : List Char → Option Nat) (rep : List Char) (s : List Char) : List Char :=
  scanSubGen m rep true s

/-- Fuel-driven worker for re.sub with an unanchored pattern: the matcher is
tried at every position, leftmost match wins, scanning resumes after the
match. -/
def scanSubAnyF (m : List Char → Option Nat) (rep : List Char) : Nat → List Char → List Char
  | _, [] => []
  | 0, s => s
  | fuel + 1, c :: rest =>
    match m (c :: rest) with
    | some n =>
      if 0 < n then rep ++ scanSubAnyF m rep fuel ((c :: rest).drop n)
      else c :: scanSubAnyF m rep fuel rest
    | none => c :: scanSubAnyF m rep fuel rest

/-- Unanchored re.sub over a whole string. -/
def scanSubAny (m : List Char → Option Nat) (rep : List Char) (s : List Char) : List Char :=
  scanSubAnyF m rep s.length s

/-- Matcher for the pattern of source line 20: three backticks, an optional
literal lean tag (taken greedily), then a maximal whitespace run. -/
def mFence1 (s : List Char) : Option Nat :=
  if (strL "```").isPrefixOf s then
    let r := s.drop 3
    if (strL "lean").isPrefixOf r then
      some (3 + 4 + ((r.drop 4).takeWhile isPySpace).length)
    else
      some (3 + (r.takeWhile isPySpace).length)
  else none

/-- Matcher for the pattern of source line 21: a maximal whitespace run
followed by three backticks. Backtracking into a shorter whitespace run can
never succeed because a whitespace character is not a backtick, so the
maximal run is the only candidate. -/
def mFence2 (s : List Char) : Option Nat :=
  let w := s.takeWhile isPySpace
  if (strL "```").isPrefixOf (s.dropWhile isPySpace) then some (w.length + 3)
  else none

/-- Common shape of the two bullet-normalization patterns of source lines
30-31: at a line start, a maximal whitespace run (which, as backslash-s
does, may span newlines), one glyph accepted by the test, then a maximal
whitespace run. -/
def mGlyphCh (test : Char → Bool) (s : List Char) : Option Nat :=
  let w1 := s.takeWhile isPySpace
  match s.dropWhile isPySpace with
  | g :: r2 =>
    if test g then some (w1.length + 1 + (r2.takeWhile isPySpace).length)
    else none
  | [] => none

/-- Glyph class of the character set in the pattern of source line 30. -/
def bulletGlyph (c : Char) : Bool := c == '·' || c == '•'

/-- Glyph class of the escaped period in the pattern of source line 31. -/
def dotGlyph (c : Char) : Bool := c == '.'

/-- Matcher for the bullet pattern of source line 30. -/
def matchBulletCh : List Char → Option Nat := mGlyphCh bulletGlyph

/-- Matcher for the leading-period pattern of source line 31. -/
def matchDotCh : List Char → Option Nat := mGlyphCh dotGlyph

/-- First some-result of f over a list, used to resolve regex backtracking
alternatives in their preference order. -/
def firstSome : List Nat → (Nat → Option Nat) → Option Nat
  | [], _ => none
  | a :: as, f => match f a with
    | some b => some b
    | none => firstSome as f

/-- Rightmost index i of a line with a colon at i directly followed by an
equals sign: the greedy dot-star before the := literal in the pattern of
source line 26 commits to the last such occurrence on the line. -/
def rightmostColonEq (l : List Char) : Option Nat :=
  ((List.range l.length).filter (fun i => l.getD i ' ' == ':' && l.getD (i + 1) ' ' == '=')).getLast?

/-- Matches the suffix colon dot-star colon-equals whitespace-star of the
def-header pattern on the text after a closing parenthesis candidate:
maximal whitespace, a colon, then up to the rightmost := on the then
current line, then maximal whitespace. Returns the consumed length. -/
def afterParen (t : List Char) : Option Nat :=
  let w := t.takeWhile isPySpace
  match t.dropWhile isPySpace with
  | ':' :: u =>
    match rightmostColonEq (u.takeWhile (fun c => !(c == '\n'))) with
    | some i => some (w.length + 1 + i + 2 + ((u.drop (i + 2)).takeWhile isPySpace).length)
    | none => none
  | _ => none

/-- Matcher for the function-definition-header pattern of source line 26,
anchored at a MULTILINE line start: def, mandatory whitespace, a word, then
optional whitespace, an opening parenthesis, a greedy same-line dot-star up
to a closing parenthesis (candidates tried rightmost first, as greedy
backtracking does), then whitespace, a colon, a greedy same-line dot-star
up to a :=, and trailing whitespace. -/
def mDef (s : List Char) : Option Nat :=
  if (strL "def").isPrefixOf s then
    let r0 := s.drop 3
    let w1 := r0.takeWhile isPySpace
    if w1.isEmpty then none
    else
      let r1 := r0.drop w1.length
      let ww := r1.takeWhile isWordChar
      if ww.isEmpty then none
      else
        let r2 := r1.drop ww.length
        let w2 := r2.takeWhile isPySpace
        match r2.drop w2.length with
        | '(' :: r4 =>
          let line := r4.takeWhile (fun c => !(c == '\n'))
          let cands := ((List.range line.length).filter (fun i => line.getD i ' ' == ')')).reverse
          match firstSome cands (fun i => (afterParen (r4.drop (i + 1))).map (fun k => i + 1 + k)) with
          | some k => some (3 + w1.length + ww.length + w2.length + 1 + k)
          | none => none
        | _ => none
  else none

/-- Removal of fenced code-block delimiters, source lines 20-23: first the
opening-fence pattern, then the closing-fence pattern, each replaced by the
empty string everywhere. -/
def stripFences (s : List Char) : List Char :=
  scanSubAny mFence2 [] (scanSubAny mFence1 [] s)

/-- Bullet normalization of source lines 30-31: the bullet-glyph
substitution runs first, the leading-period substitution runs second, each
replacing its match with a canonical bullet and one space. -/
def normalizeBullets (s : List Char) : List Char :=
  scanSub matchDotCh (strL "· ") (scanSub matchBulletCh (strL "· ") s)

/-- Full normalization of a captured code span, source lines 16, 20-21, 26:
strip, fence removal, then removal of redundant def headers. -/
def normCode (s : List Char) : List Char :=
  scanSub mDef [] (stripFences (pyStrip s))

/-- Full normalization of a captured proof span, source lines 17, 22-23,
30-31: strip, fence removal, then bullet normalization. -/
def normProof (s : List Char) : List Char :=
  normalizeBullets (stripFences (pyStrip s))

/-- Sentinel defaulting of source lines 34-37: an empty span becomes the
incomplete-proof token. -/
def orSentinel (s : List Char) : List Char :=
  if s.isEmpty then strL "sorry" else s

/-- Captured code span of the regex at source line 13: the text after the
first case-insensitive CODE: marker, cut at the first case-insensitive
PROOF: marker after it, or running to the end of the text; empty when the
CODE: marker is absent. The pattern ends in an alternation with the dollar
anchor, which can also stop one character before a final newline; that
difference is exactly one trailing newline and is erased by the strip that
is applied to every captured span, so the end-of-text model is used. -/
def extractCode (response : List Char) : List Char :=
  match splitFirstCI (strL "code:") response with
  | none => []
  | some (_, rest) =>
    match splitFirstCI (strL "proof:") rest with
    | none => rest
    | some (before, _) => before

/-- Captured proof span of the regex at source line 14: everything after
the first case-insensitive PROOF: marker, or empty when it is absent. -/
def extractProof (response : List Char) : List Char :=
  match splitFirstCI (strL "proof:") response with
  | none => []
  | some (_, rest) => rest

/-- parse_code_proof of source lines 10-39: extract both spans, normalize
each, and default empty results to the sentinel. -/
def parse_code_proof (response : List Char) : List Char × List Char :=
  (orSentinel (normCode (extractCode response)),
   orSentinel (normProof (extractProof response)))

/-- Template binding of source lines 171-172: Python replace of the code
placeholder by the implementation, then of the proof placeholder by the
proof, in that order. -/
def bindTemplate (template code proof : List Char) : List Char :=
  replaceAll (strL "\x7b\x7bproof\x7d\x7d") proof
    (replaceAll (strL "\x7b\x7bcode\x7d\x7d") code template)

/-- Success marker tested at source line 178. -/
def successMarker : List Char := strL "Lean code executed successfully."

/-- Incomplete-proof sentinel token. -/
def sentinelTok : List Char := strL "sorry"

/-- Role-tagged conversation message. -/
structure Msg where
  role : List Char
  content : List Char
deriving DecidableEq

/-- Feedback message of source line 184, appended when a stub is
detected. -/
def stubFeedback : List Char :=
  strL "Your solution contains \x27sorry\x27. Please provide a complete implementation and proof without using \x27sorry\x27. Just provide the exact code and proof body that should replace \x7b\x7bcode\x7d\x7d and \x7b\x7bproof\x7d\x7d respectively."

/-- Feedback message of source lines 189-197, appended on a hard
verification failure; inside the Python f-string the doubled braces denote
single literal braces. -/
def hardFeedback (result : List Char) : List Char :=
  strL "Your solution had errors:\n" ++ result ++
  strL "\n\nPlease fix the code and proof. Remember:\n1. ONLY provide the exact body for \x7bcode\x7d and \x7bproof\x7d\n2. Do not include function definitions or extra formatting\n3. Avoid using dots (.) at the beginning of lines in the proof\n4. Do not use nested syntax like \x27by_cases h\x27 inside a case\n5. Use simple proof tactics like \x27simp\x27, \x27rfl\x27, \x27exact\x27, etc."

/-- Outcome classification branch of source lines 178-197. -/
inductive Outcome where
  | success
  | stub
  | hard
deriving DecidableEq

/-- Classification of one verification outcome, in the priority order of
the if/elif/else at source lines 178-186: the success test first, then the
substring test for the sentinel in either candidate, then hard failure. -/
def classify (result code proof : List Char) : Outcome :=
  if containsSub result successMarker then .success
  else if containsSub code sentinelTok || containsSub proof sentinelTok then .stub
  else .hard

/-- Result of the retry loop, with ghost counters for the number of model
and verifier calls and a ghost success flag used only to state claims. -/
structure LoopResult where
  code : List Char
  proof : List Char
  messages : List Msg
  modelCalls : Nat
  verifierCalls : Nat
  succeeded : Bool
deriving DecidableEq

/-- The while loop of source lines 158-199, recursing on the remaining
attempt budget. Each iteration calls the model on the current conversation,
parses, binds, calls the verifier, and either terminates on success or
appends the assistant response and one feedback message chosen by the
classification, keeping the freshly parsed pair as the current pair. When
the budget is exhausted the current pair is returned. -/
def runFrom (getResponse : List Msg → List Char) (execute : List Char → List Char)
    (task_lean_code : List Char) : Nat → List Msg → List Char × List Char → LoopResult
  | 0, msgs, cur => ⟨cur.1, cur.2, msgs, 0, 0, false⟩
  | n + 1, msgs, cur =>
    let response := getResponse msgs
    let cp := parse_code_proof response
    let result := execute (bindTemplate task_lean_code cp.1 cp.2)
    match classify result cp.1 cp.2 with
    | .success => ⟨cp.1, cp.2, msgs, 1, 1, true⟩
    | .stub =>
      let r := runFrom getResponse execute task_lean_code n
        (msgs ++ [⟨strL "assistant", response⟩, ⟨strL "user", stubFeedback⟩]) cp
      ⟨r.code, r.proof, r.messages, r.modelCalls + 1, r.verifierCalls + 1, r.succeeded⟩
    | .hard =>
      let r := runFrom getResponse execute task_lean_code n
        (msgs ++ [⟨strL "assistant", response⟩, ⟨strL "user", hardFeedback result⟩]) cp
      ⟨r.code, r.proof, r.messages, r.modelCalls + 1, r.verifierCalls + 1, r.succeeded⟩

/-- Fixed attempt budget of source line 55. -/
def max_retries : Nat := 3

/-- main_workflow of source lines 41-207, with the external collaborators
(the LLM agent of line 161 and the Lean runner of line 175) as function
parameters and the initial prompt construction of lines 62-156 abstracted
as the initial conversation, since no claim depends on the prompt text.
The current pair starts as the sentinel pair of lines 53-54. -/
def main_workflow (getResponse : List Msg → List Char) (execute : List Char → List Char)
    (task_lean_code : List Char) (initialMessages : List Msg) : LoopResult :=
  runFrom getResponse execute task_lean_code max_retries initialMessages
    (sentinelTok, sentinelTok)

/-- Reassembly of a candidate pair into a response with explicit markers,
as in the idempotence property of the specification: CODE: marker, code,
PROOF: marker, proof. -/
def reassemble (cp : List Char × List Char) : List Char :=
  strL "CODE:" ++ cp.1 ++ strL "PROOF:" ++ cp.2

/-- Well-behaved line for the linewise reading of bullet normalization: the
line is nonempty, contains no newline, starts with a non-whitespace
character, and when it starts with a bullet glyph or a period retains some
non-whitespace material after the glyph. On text joined from such lines
the two substitutions of source lines 30-31 act line by line. -/
def lineOKb (l : List Char) : Bool :=
  match l with
  | [] => false
  | c :: rest =>
    !isPySpace c && (c :: rest).all (fun ch => !(ch == '\n')) &&
      (!(bulletGlyph c || dotGlyph c) || !(rest.dropWhile isPySpace).isEmpty)

/-- Well-behaved line for a single glyph substitution: nonempty,
newline-free, led by a non-whitespace character, and retaining
non-whitespace material after a leading glyph accepted by the test. -/
def lineOKT (test : Char → Bool) (l : List Char) : Bool :=
  match l with
  | [] => false
  | c :: rest =>
    !isPySpace c && (c :: rest).all (fun ch => !(ch == '\n')) &&
      (!(test c) || !(rest.dropWhile isPySpace).isEmpty)

/-- Linewise effect of one glyph substitution: a line whose first character
passes the test is rewritten to the canonical bullet, one space, and the
remainder of the line after the whitespace that followed the glyph; other
lines are untouched. -/
def lineNormG (test : Char → Bool) (l : List Char) : List Char :=
  match l with
  | [] => []
  | c :: rest => if test c then '·' :: ' ' :: rest.dropWhile isPySpace else c :: rest

/-- Linewise effect of the full bullet normalization: the bullet-glyph
rewrite followed by the leading-period rewrite. -/
def lineNorm (l : List Char) : List Char :=
  lineNormG dotGlyph (lineNormG bulletGlyph l)

/-- Joins lines with single newlines, the inverse of splitting a text into
its lines. -/
def joinLines : List (List Char) → List Char
  | [] => []
  | [l] => l
  | l :: l2 :: ls => l ++ '\n' :: joinLines (l2 :: ls)

/-! Basic facts about the fuel-driven workers: the fuel argument is
irrelevant once it dominates the length of the input, which yields clean
one-step unfolding lemmas for the wrappers. -/

theorem replaceAllF_nil (pat rep : List Char) (f : Nat) : replaceAllF pat rep f [] = [] := by
  cases f <;> rfl

theorem replaceAllF_fuel (pat rep : List Char) :
    ∀ (f1 f2 : Nat) (s : List Char), s.length ≤ f1 → s.length ≤ f2 →
      replaceAllF pat rep f1 s = replaceAllF pat rep f2 s := by
  intro f1
  induction f1 with
  | zero =>
    intro f2 s h1 _
    have hs : s = [] := List.eq_nil_of_length_eq_zero (Nat.le_zero.mp h1)
    subst hs
    rw [replaceAllF_nil, replaceAllF_nil]
  | succ f ih =>
    intro f2 s h1 h2
    cases s with
    | nil => rw [replaceAllF_nil, replaceAllF_nil]
    | cons c rest =>
      cases f2 with
      | zero => simp at h2
      | succ f2 =>
        simp only [replaceAllF]
        by_cases hp : (pat.isPrefixOf (c :: rest) && !pat.isEmpty) = true
        · rw [if_pos hp, if_pos hp]
          have hplen : 1 ≤ pat.length := by
            cases pat with
            | nil => simp at hp
            | cons q qs => simp
          have hd : ((c :: rest).drop pat.length).length ≤ rest.length := by
            simp only [List.length_drop, List.length_cons]
            omega
          simp only [List.length_cons] at h1 h2
          exact congrArg (rep ++ ·) (ih f2 _ (by omega) (by omega))
        · rw [if_neg hp, if_neg hp]
          simp only [List.length_cons] at h1 h2
          exact congrArg (c :: ·) (ih f2 rest (by omega) (by omega))

theorem replaceAll_nil (pat rep : List Char) (hne : pat ≠ []) :
    replaceAll pat rep [] = [] := by
  have hie : pat.isEmpty = false := by
    cases pat with
    | nil => exact absurd rfl hne
    | cons q qs => rfl
  simp [replaceAll, hie, replaceAllF_nil]

theorem replaceAll_cons (pat rep : List Char) (hne : pat ≠ []) (c : Char) (rest : List Char) :
    replaceAll pat rep (c :: rest) =
      if pat.isPrefixOf (c :: rest) = true then
        rep ++ replaceAll pat rep ((c :: rest).drop pat.length)
      else c :: replaceAll pat rep rest := by
  have hie : pat.isEmpty = false := by
    cases pat with
    | nil => exact absurd rfl hne
    | cons q qs => rfl
  have hplen : 1 ≤ pat.length := by
    cases pat with
    | nil => exact absurd rfl hne
    | cons q qs => simp
  simp only [replaceAll, hie, Bool.false_eq_true, if_false, List.length_cons]
  simp only [replaceAllF, hie, Bool.not_false, Bool.and_true]
  by_cases hp : pat.isPrefixOf (c :: rest) = true
  · rw [if_pos hp, if_pos hp]
    have hd : ((c :: rest).drop pat.length).length ≤ rest.length := by
      simp only [List.length_drop, List.length_cons]
      omega
    exact congrArg (rep ++ ·)
      (replaceAllF_fuel pat rep rest.length ((c :: rest).drop pat.length).length _ hd le_rfl)
  · rw [if_neg hp, if_neg hp]

theorem replaceAll_append_of_no_occur (pat rep : List Char) (hne : pat ≠ []) :
    ∀ (a b : List Char),
      (∀ i, i < a.length → pat.isPrefixOf ((a ++ b).drop i) = false) →
      replaceAll pat rep (a ++ b) = a ++ replaceAll pat rep b := by
  intro a
  induction a with
  | nil => intro b _; simp
  | cons c a ih =>
    intro b h
    rw [List.cons_append, replaceAll_cons pat rep hne]
    have h0 := h 0 (by simp)
    rw [List.drop_zero, List.cons_append] at h0
    rw [if_neg (by simp [h0])]
    rw [ih b (fun i hi => by
      have := h (i + 1) (by simpa using Nat.succ_lt_succ hi)
      simpa using this)]
    rfl

theorem replaceAll_at_match (pat rep : List Char) (hne : pat ≠ []) (b : List Char) :
    replaceAll pat rep (pat ++ b) = rep ++ replaceAll pat rep b := by
  cases pat with
  | nil => exact absurd rfl hne
  | cons q qs =>
    rw [List.cons_append, replaceAll_cons _ _ hne]
    have hp : (q :: qs).isPrefixOf (q :: (qs ++ b)) = true := by
      rw [show (q :: (qs ++ b)) = (q :: qs) ++ b from rfl, List.isPrefixOf_iff_prefix]
      exact List.prefix_append _ _
    rw [if_pos hp]
    rw [show (q :: (qs ++ b)) = (q :: qs) ++ b from rfl, List.drop_left]

theorem replaceAll_no_occur (pat rep : List Char) :
    ∀ (s : List Char), containsSub s pat = false → replaceAll pat rep s = s := by
  intro s
  induction s with
  | nil =>
    intro h
    simp only [containsSub] at h
    simp [replaceAll, h, replaceAllF_nil]
  | cons c rest ih =>
    intro h
    simp only [containsSub, Bool.or_eq_false_iff] at h
    obtain ⟨h1, h2⟩ := h
    have hne : pat ≠ [] := by
      intro e
      subst e
      simp [List.isPrefixOf] at h1
    rw [replaceAll_cons _ _ hne, if_neg (by simp [h1]), ih h2]

/-! Facts about case-insensitive marker search. -/

theorem startsWithCI_map_toLower : ∀ (m x : List Char),
    startsWithCI (m.map Char.toLower) (m ++ x) = true := by
  intro m
  induction m with
  | nil => intro x; rfl
  | cons c ms ih => intro x; simp [startsWithCI, ih]

theorem splitFirstCI_append (marker : List Char) :
    ∀ (a b : List Char),
      (∀ i, i < a.length → startsWithCI marker ((a ++ b).drop i) = false) →
      startsWithCI marker b = true →
      splitFirstCI marker (a ++ b) = some (a, b.drop marker.length) := by
  intro a
  induction a with
  | nil =>
    intro b _ hb
    cases b with
    | nil =>
      cases marker with
      | nil => rfl
      | cons m ms => simp [startsWithCI] at hb
    | cons c rest =>
      simp [splitFirstCI, hb]
  | cons c a ih =>
    intro b h hb
    have h0 := h 0 (by simp)
    rw [List.drop_zero, List.cons_append] at h0
    rw [List.cons_append]
    simp only [splitFirstCI, h0, Bool.false_eq_true, if_false]
    rw [ih b (fun i hi => by
      have := h (i + 1) (by simpa using Nat.succ_lt_succ hi)
      simpa using this) hb]

theorem splitFirstCI_none_of_no_occur (marker : List Char) (hne : marker ≠ []) :
    ∀ (s : List Char),
      (∀ i, i < s.length → startsWithCI marker (s.drop i) = false) →
      splitFirstCI marker s = none := by
  intro s
  induction s with
  | nil =>
    intro _
    have hie : marker.isEmpty = false := by
      cases marker with
      | nil => exact absurd rfl hne
      | cons q qs => rfl
    simp [splitFirstCI, hie]
  | cons c rest ih =>
    intro h
    have h0 := h 0 (by simp)
    rw [List.drop_zero] at h0
    simp only [splitFirstCI, h0, Bool.false_eq_true, if_false]
    rw [ih (fun i hi => by
      have := h (i + 1) (by simpa using Nat.succ_lt_succ hi)
      simpa using this)]

/-! Facts about the anchored and unanchored scanners. -/

theorem scanSubF_nil (m : List Char → Option Nat) (rep : List Char) (f : Nat) (flag : Bool) :
    scanSubF m rep f flag [] = [] := by
  cases f <;> rfl

theorem scanSubF_fuel (m : List Char → Option Nat) (rep : List Char) :
    ∀ (f1 f2 : Nat) (flag : Bool) (s : List Char), s.length ≤ f1 → s.length ≤ f2 →
      scanSubF m rep f1 flag s = scanSubF m rep f2 flag s := by
  intro f1
  induction f1 with
  | zero =>
    intro f2 flag s h1 _
    have hs : s = [] := List.eq_nil_of_length_eq_zero (Nat.le_zero.mp h1)
    subst hs
    rw [scanSubF_nil, scanSubF_nil]
  | succ f ih =>
    intro f2 flag s h1 h2
    cases s with
    | nil => rw [scanSubF_nil, scanSubF_nil]
    | cons c rest =>
      cases f2 with
      | zero => simp at h2
      | succ f2 =>
        simp only [scanSubF]
        simp only [List.length_cons] at h1 h2
        cases hm : (if flag then m (c :: rest) else none) with
        | none =>
          dsimp only
          exact congrArg (c :: ·) (ih f2 _ rest (by omega) (by omega))
        | some n =>
          dsimp only
          by_cases hn : 0 < n
          · rw [if_pos hn, if_pos hn]
            have hd : ((c :: rest).drop n).length ≤ rest.length := by
              simp only [List.length_drop, List.length_cons]
              omega
            exact congrArg (rep ++ ·) (ih f2 _ _ (by omega) (by omega))
          · rw [if_neg hn, if_neg hn]
            exact congrArg (c :: ·) (ih f2 _ rest (by omega) (by omega))

theorem scanSubGen_cons_nomatch (m : List Char → Option Nat) (rep : List Char)
    (flag : Bool) (c : Char) (rest : List Char)
    (h : (if flag then m (c :: rest) else none) = none) :
    scanSubGen m rep flag (c :: rest) = c :: scanSubGen m rep (c == '\n') rest := by
  simp only [scanSubGen, List.length_cons, scanSubF, h]

theorem scanSubGen_cons_match (m : List Char → Option Nat) (rep : List Char)
    (c : Char) (rest : List Char) (n : Nat)
    (hm : m (c :: rest) = some n) (hn : 0 < n) :
    scanSubGen m rep true (c :: rest) =
      rep ++ scanSubGen m rep (lastNl (c :: rest) n) ((c :: rest).drop n) := by
  simp only [scanSubGen, List.length_cons, scanSubF, if_pos trivial, hm, if_pos hn]
  refine congrArg (rep ++ ·) (scanSubF_fuel m rep rest.length _ _ _ ?_ le_rfl)
  simp only [List.length_drop, List.length_cons]
  omega

theorem scanSubGen_copy (m : List Char → Option Nat) (rep : List Char) :
    ∀ (xs ys : List Char), (∀ ch ∈ xs, (ch == '\n') = false) →
      scanSubGen m rep false (xs ++ ys) = xs ++ scanSubGen m rep false ys := by
  intro xs
  induction xs with
  | nil => intro ys _; simp
  | cons c xs ih =>
    intro ys h
    rw [List.cons_append, scanSubGen_cons_nomatch m rep false c _ rfl]
    rw [h c (List.mem_cons_self c xs)]
    rw [ih ys (fun ch hch => h ch (List.mem_cons_of_mem c hch))]
    rfl

/-! Linewise behaviour of the two bullet substitutions on well-behaved
lines. -/

theorem mem_of_mem_takeWhile (p : Char → Bool) :
    ∀ (l : List Char) (a : Char), a ∈ l.takeWhile p → a ∈ l := by
  intro l
  induction l with
  | nil => intro a h; simp [List.takeWhile] at h
  | cons c l ih =>
    intro a h
    rw [List.takeWhile_cons] at h
    by_cases hp : p c = true
    · rw [if_pos hp] at h
      rcases List.mem_cons.mp h with h | h
      · exact h ▸ List.mem_cons_self c l
      · exact List.mem_cons_of_mem c (ih a h)
    · simp [hp] at h

theorem mem_of_mem_dropWhile (p : Char → Bool) :
    ∀ (l : List Char) (a : Char), a ∈ l.dropWhile p → a ∈ l := by
  intro l
  induction l with
  | nil => intro a h; simp [List.dropWhile] at h
  | cons c l ih =>
    intro a h
    rw [List.dropWhile_cons] at h
    by_cases hp : p c = true
    · rw [if_pos hp] at h
      exact List.mem_cons_of_mem c (ih a h)
    · rw [if_neg hp] at h
      exact h

theorem takeWhile_append_of_dropWhile_ne (p : Char → Bool) :
    ∀ (l ys : List Char), l.dropWhile p ≠ [] →
      (l ++ ys).takeWhile p = l.takeWhile p := by
  intro l
  induction l with
  | nil => intro ys h; exact absurd rfl h
  | cons c l ih =>
    intro ys h
    rw [List.dropWhile_cons] at h
    by_cases pc : p c = true
    · rw [if_pos pc] at h
      rw [List.cons_append, List.takeWhile_cons, if_pos pc, List.takeWhile_cons, if_pos pc,
        ih ys h]
    · rw [List.cons_append, List.takeWhile_cons, if_neg pc, List.takeWhile_cons, if_neg pc]

theorem getLastD_no_newline :
    ∀ (xs : List Char) (x : Char), (x == '\n') = false →
      (∀ ch ∈ xs, (ch == '\n') = false) →
      (((x :: xs).getLastD 'a') == '\n') = false := by
  intro xs
  induction xs with
  | nil => intro x hx _; simpa using hx
  | cons y ys ih =>
    intro x _ h
    rw [List.getLastD_cons]
    exact ih y (h y (List.mem_cons_self y ys)) (fun ch hch => h ch (List.mem_cons_of_mem y hch))

theorem scanGlyph_line (test : Char → Bool) (c : Char) (rest ys : List Char)
    (hw : isPySpace c = false)
    (hnl : ∀ ch ∈ c :: rest, (ch == '\n') = false)
    (hg : test c = true → (rest.dropWhile isPySpace).isEmpty = false) :
    scanSubGen (mGlyphCh test) (strL "· ") true ((c :: rest) ++ ys) =
      lineNormG test (c :: rest) ++ scanSubGen (mGlyphCh test) (strL "· ") false ys := by
  have hnlrest : ∀ ch ∈ rest, (ch == '\n') = false :=
    fun ch hch => hnl ch (List.mem_cons_of_mem c hch)
  by_cases hc : test c = true
  · obtain ⟨w, hw2⟩ : ∃ w, rest.takeWhile isPySpace = w := ⟨_, rfl⟩
    obtain ⟨t, ht2⟩ : ∃ t, rest.dropWhile isPySpace = t := ⟨_, rfl⟩
    have htail_ne : t ≠ [] := by
      have := hg hc
      rw [ht2] at this
      intro e
      rw [e] at this
      simp at this
    have hrest : w ++ t = rest := by
      rw [← hw2, ← ht2]
      exact List.takeWhile_append_dropWhile isPySpace rest
    subst hrest
    have hmatch : mGlyphCh test ((c :: (w ++ t)) ++ ys) = some (1 + w.length) := by
      rw [List.cons_append]
      simp only [mGlyphCh, List.takeWhile_cons, List.dropWhile_cons, hw, Bool.false_eq_true,
        if_false, hc, if_pos]
      rw [takeWhile_append_of_dropWhile_ne isPySpace (w ++ t) ys (by rw [ht2]; exact htail_ne)]
      rw [hw2]
      simp
    rw [List.cons_append] at hmatch ⊢
    rw [scanSubGen_cons_match (mGlyphCh test) (strL "· ") c _ _ hmatch (by omega)]
    have hdrop : (c :: (w ++ t ++ ys)).drop (1 + w.length) = t ++ ys := by
      rw [Nat.add_comm, List.drop_succ_cons, List.append_assoc, List.drop_left]
    have htake : (c :: (w ++ t ++ ys)).take (1 + w.length) = c :: w := by
      rw [Nat.add_comm, List.take_succ_cons, List.append_assoc, List.take_left]
    have hlast : lastNl (c :: (w ++ t ++ ys)) (1 + w.length) = false := by
      rw [lastNl, htake]
      refine getLastD_no_newline w c (hnl c (List.mem_cons_self c _)) (fun ch hch => ?_)
      refine hnlrest ch (mem_of_mem_takeWhile isPySpace (w ++ t) ch ?_)
      rw [hw2]
      exact hch
    rw [hdrop, hlast]
    rw [scanSubGen_copy (mGlyphCh test) (strL "· ") t ys (fun ch hch => by
      refine hnlrest ch (mem_of_mem_dropWhile isPySpace (w ++ t) ch ?_)
      rw [ht2]
      exact hch)]
    simp only [lineNormG, hc, if_pos, ht2]
    rfl
  · have hmatch : (if true then mGlyphCh test ((c :: rest) ++ ys) else none) = none := by
      rw [List.cons_append]
      simp only [mGlyphCh, List.takeWhile_cons, List.dropWhile_cons, hw, Bool.false_eq_true,
        if_false, hc, if_true]
    rw [List.cons_append, scanSubGen_cons_nomatch (mGlyphCh test) (strL "· ") true c _
      (by rw [← List.cons_append]; exact hmatch)]
    rw [hnl c (List.mem_cons_self c rest)]
    rw [scanSubGen_copy (mGlyphCh test) (strL "· ") rest ys hnlrest]
    simp [lineNormG, hc]

theorem lineOKT_parts (test : Char → Bool) (c : Char) (rest : List Char)
    (h : lineOKT test (c :: rest) = true) :
    isPySpace c = false ∧ (∀ ch ∈ c :: rest, (ch == '\n') = false) ∧
      (test c = true → (rest.dropWhile isPySpace).isEmpty = false) := by
  simp only [lineOKT, Bool.and_eq_true, List.all_eq_true, Bool.not_eq_true',
    Bool.or_eq_true] at h
  obtain ⟨⟨h1, h2⟩, h3⟩ := h
  refine ⟨h1, fun ch hch => h2 ch hch, fun htc => ?_⟩
  rcases h3 with h3 | h3
  · rw [htc] at h3
    cases h3
  · exact h3

theorem scanGlyph_join (test : Char → Bool) :
    ∀ ls : List (List Char), (∀ l ∈ ls, lineOKT test l = true) →
      scanSub (mGlyphCh test) (strL "· ") (joinLines ls) =
        joinLines (ls.map (lineNormG test)) := by
  intro ls
  induction ls with
  | nil => intro _; rfl
  | cons l ls ih =>
    intro h
    have hl := h l (List.mem_cons_self l ls)
    cases l with
    | nil => simp [lineOKT] at hl
    | cons c rest =>
      obtain ⟨h1, h2, h3⟩ := lineOKT_parts test c rest hl
      cases ls with
      | nil =>
        have hline := scanGlyph_line test c rest [] h1 h2 h3
        rw [List.append_nil] at hline
        show scanSubGen (mGlyphCh test) (strL "· ") true (c :: rest) =
          joinLines [lineNormG test (c :: rest)]
        rw [hline]
        show lineNormG test (c :: rest) ++ scanSubF (mGlyphCh test) (strL "· ") 0 false [] =
          joinLines [lineNormG test (c :: rest)]
        rw [scanSubF_nil, List.append_nil]
        rfl
      | cons l2 ls2 =>
        have hline := scanGlyph_line test c rest ('\n' :: joinLines (l2 :: ls2)) h1 h2 h3
        show scanSubGen (mGlyphCh test) (strL "· ") true
            ((c :: rest) ++ '\n' :: joinLines (l2 :: ls2)) = _
        rw [hline]
        rw [scanSubGen_cons_nomatch (mGlyphCh test) (strL "· ") false '\n' _ rfl]
        have hni : ('\n' == '\n') = true := rfl
        rw [hni]
        rw [show scanSubGen (mGlyphCh test) (strL "· ") true (joinLines (l2 :: ls2)) =
              joinLines ((l2 :: ls2).map (lineNormG test)) from
            ih (fun l3 hl3 => h l3 (List.mem_cons_of_mem _ hl3))]
        show _ = joinLines (lineNormG test (c :: rest) :: lineNormG test l2 :: ls2.map (lineNormG test))
        rw [joinLines]
        rfl

theorem lineOKT_bullet_of_lineOKb (l : List Char) (h : lineOKb l = true) :
    lineOKT bulletGlyph l = true := by
  cases l with
  | nil => simp [lineOKb] at h
  | cons c rest =>
    simp only [lineOKb, Bool.and_eq_true, Bool.or_eq_true, Bool.not_eq_true'] at h
    simp only [lineOKT, Bool.and_eq_true, Bool.or_eq_true, Bool.not_eq_true']
    obtain ⟨⟨h1, h2⟩, h3⟩ := h
    refine ⟨⟨h1, h2⟩, ?_⟩
    rcases h3 with h3 | h3
    · rcases Bool.or_eq_false_iff.mp h3 with ⟨ha, _⟩
      exact Or.inl ha
    · exact Or.inr h3

theorem lineOKT_dot_of_lineOKb_norm (l : List Char) (h : lineOKb l = true) :
    lineOKT dotGlyph (lineNormG bulletGlyph l) = true := by
  cases l with
  | nil => simp [lineOKb] at h
  | cons c rest =>
    simp only [lineOKb, Bool.and_eq_true, Bool.or_eq_true, Bool.not_eq_true',
      List.all_eq_true] at h
    obtain ⟨⟨h1, h2⟩, h3⟩ := h
    by_cases hb : bulletGlyph c = true
    · rw [lineNormG, if_pos hb]
      simp only [lineOKT, Bool.and_eq_true, Bool.or_eq_true, Bool.not_eq_true',
        List.all_eq_true]
      refine ⟨⟨by decide, ?_⟩, Or.inl (by decide)⟩
      intro ch hch
      rcases List.mem_cons.mp hch with e | hch
      · subst e; decide
      rcases List.mem_cons.mp hch with e | hch
      · subst e; decide
      · exact h2 ch (List.mem_cons_of_mem c (mem_of_mem_dropWhile isPySpace rest ch hch))
    · rw [lineNormG, if_neg hb]
      simp only [lineOKT, Bool.and_eq_true, Bool.or_eq_true, Bool.not_eq_true',
        List.all_eq_true]
      refine ⟨⟨h1, fun ch hch => h2 ch hch⟩, ?_⟩
      by_cases hd : dotGlyph c = true
      · rcases h3 with h3 | h3
        · rcases Bool.or_eq_false_iff.mp h3 with ⟨_, hdd⟩
          rw [hd] at hdd
          cases hdd
        · exact Or.inr h3
      · exact Or.inl (by simpa using hd)

theorem normalizeBullets_joinLines (ls : List (List Char))
    (h : ∀ l ∈ ls, lineOKb l = true) :
    normalizeBullets (joinLines ls) = joinLines (ls.map lineNorm) := by
  rw [normalizeBullets]
  rw [show matchBulletCh = mGlyphCh bulletGlyph from rfl,
    show matchDotCh = mGlyphCh dotGlyph from rfl]
  rw [show scanSub (mGlyphCh bulletGlyph) (strL "· ") (joinLines ls) =
        joinLines (ls.map (lineNormG bulletGlyph)) from
      scanGlyph_join bulletGlyph ls (fun l hl => lineOKT_bullet_of_lineOKb l (h l hl))]
  rw [scanGlyph_join dotGlyph (ls.map (lineNormG bulletGlyph)) (fun l2 hl2 => by
    rcases List.mem_map.mp hl2 with ⟨l0, hl0, e⟩
    subst e
    exact lineOKT_dot_of_lineOKb_norm l0 (h l0 hl0))]
  rw [List.map_map]
  rfl

/-! Facts about the retry loop: one unfolding lemma per classification
branch, then the call-count bound and the message-growth invariant. -/

theorem runFrom_succ_success (getResponse : List Msg → List Char)
    (execute : List Char → List Char) (task_lean_code : List Char)
    (n : Nat) (msgs : List Msg) (cur : List Char × List Char)
    (hcl : classify (execute (bindTemplate task_lean_code
        (parse_code_proof (getResponse msgs)).1 (parse_code_proof (getResponse msgs)).2))
        (parse_code_proof (getResponse msgs)).1 (parse_code_proof (getResponse msgs)).2 =
      Outcome.success) :
    runFrom getResponse execute task_lean_code (n + 1) msgs cur =
      ⟨(parse_code_proof (getResponse msgs)).1, (parse_code_proof (getResponse msgs)).2,
        msgs, 1, 1, true⟩ := by
  simp only [runFrom, hcl]

theorem runFrom_succ_stub (getResponse : List Msg → List Char)
    (execute : List Char → List Char) (task_lean_code : List Char)
    (n : Nat) (msgs : List Msg) (cur : List Char × List Char)
    (hcl : classify (execute (bindTemplate task_lean_code
        (parse_code_proof (getResponse msgs)).1 (parse_code_proof (getResponse msgs)).2))
        (parse_code_proof (getResponse msgs)).1 (parse_code_proof (getResponse msgs)).2 =
      Outcome.stub) :
    runFrom getResponse execute task_lean_code (n + 1) msgs cur =
      ⟨(runFrom getResponse execute task_lean_code n
          (msgs ++ [⟨strL "assistant", getResponse msgs⟩, ⟨strL "user", stubFeedback⟩])
          (parse_code_proof (getResponse msgs))).code,
        (runFrom getResponse execute task_lean_code n
          (msgs ++ [⟨strL "assistant", getResponse msgs⟩, ⟨strL "user", stubFeedback⟩])
          (parse_code_proof (getResponse msgs))).proof,
        (runFrom getResponse execute task_lean_code n
          (msgs ++ [⟨strL "assistant", getResponse msgs⟩, ⟨strL "user", stubFeedback⟩])
          (parse_code_proof (getResponse msgs))).messages,
        (runFrom getResponse execute task_lean_code n
          (msgs ++ [⟨strL "assistant", getResponse msgs⟩, ⟨strL "user", stubFeedback⟩])
          (parse_code_proof (getResponse msgs))).modelCalls + 1,
        (runFrom getResponse execute task_lean_code n
          (msgs ++ [⟨strL "assistant", getResponse msgs⟩, ⟨strL "user", stubFeedback⟩])
          (parse_code_proof (getResponse msgs))).verifierCalls + 1,
        (runFrom getResponse execute task_lean_code n
          (msgs ++ [⟨strL "assistant", getResponse msgs⟩, ⟨strL "user", stubFeedback⟩])
          (parse_code_proof (getResponse msgs))).succeeded⟩ := by
  simp only [runFrom, hcl]

theorem runFrom_succ_hard (getResponse : List Msg → List Char)
    (execute : List Char → List Char) (task_lean_code : List Char)
    (n : Nat) (msgs : List Msg) (cur : List Char × List Char)
    (hcl : classify (execute (bindTemplate task_lean_code
        (parse_code_proof (getResponse msgs)).1 (parse_code_proof (getResponse msgs)).2))
        (parse_code_proof (getResponse msgs)).1 (parse_code_proof (getResponse msgs)).2 =
      Outcome.hard) :
    runFrom getResponse execute task_lean_code (n + 1) msgs cur =
      ⟨(runFrom getResponse execute task_lean_code n
          (msgs ++ [⟨strL "assistant", getResponse msgs⟩,
            ⟨strL "user", hardFeedback (execute (bindTemplate task_lean_code
              (parse_code_proof (getResponse msgs)).1
              (parse_code_proof (getResponse msgs)).2))⟩])
          (parse_code_proof (getResponse msgs))).code,
        (runFrom getResponse execute task_lean_code n
          (msgs ++ [⟨strL "assistant", getResponse msgs⟩,
            ⟨strL "user", hardFeedback (execute (bindTemplate task_lean_code
              (parse_code_proof (getResponse msgs)).1
              (parse_code_proof (getResponse msgs)).2))⟩])
          (parse_code_proof (getResponse msgs))).proof,
        (runFrom getResponse execute task_lean_code n
          (msgs ++ [⟨strL "assistant", getResponse msgs⟩,
            ⟨strL "user", hardFeedback (execute (bindTemplate task_lean_code
              (parse_code_proof (getResponse msgs)).1
              (parse_code_proof (getResponse msgs)).2))⟩])
          (parse_code_proof (getResponse msgs))).messages,
        (runFrom getResponse execute task_lean_code n
          (msgs ++ [⟨strL "assistant", getResponse msgs⟩,
            ⟨strL "user", hardFeedback (execute (bindTemplate task_lean_code
              (parse_code_proof (getResponse msgs)).1
              (parse_code_proof (getResponse msgs)).2))⟩])
          (parse_code_proof (getResponse msgs))).modelCalls + 1,
        (runFrom getResponse execute task_lean_code n
          (msgs ++ [⟨strL "assistant", getResponse msgs⟩,
            ⟨strL "user", hardFeedback (execute (bindTemplate task_lean_code
              (parse_code_proof (getResponse msgs)).1
              (parse_code_proof (getResponse msgs)).2))⟩])
          (parse_code_proof (getResponse msgs))).verifierCalls + 1,
        (runFrom getResponse execute task_lean_code n
          (msgs ++ [⟨strL "assistant", getResponse msgs⟩,
            ⟨strL "user", hardFeedback (execute (bindTemplate task_lean_code
              (parse_code_proof (getResponse msgs)).1
              (parse_code_proof (getResponse msgs)).2))⟩])
          (parse_code_proof (getResponse msgs))).succeeded⟩ := by
  simp only [runFrom, hcl]

theorem runFrom_calls_le (getResponse : List Msg → List Char) (execute : List Char → List Char)
    (task_lean_code : List Char) :
    ∀ (n : Nat) (msgs : List Msg) (cur : List Char × List Char),
      (runFrom getResponse execute task_lean_code n msgs cur).modelCalls ≤ n ∧
      (runFrom getResponse execute task_lean_code n msgs cur).verifierCalls ≤ n := by
  intro n
  induction n with
  | zero => intro msgs cur; exact ⟨le_rfl, le_rfl⟩
  | succ n ih =>
    intro msgs cur
    rcases hcl : classify (execute (bindTemplate task_lean_code
        (parse_code_proof (getResponse msgs)).1 (parse_code_proof (getResponse msgs)).2))
        (parse_code_proof (getResponse msgs)).1 (parse_code_proof (getResponse msgs)).2 with
      _ | _ | _
    · rw [runFrom_succ_success getResponse execute task_lean_code n msgs cur hcl]
      exact ⟨by simp, by simp⟩
    · rw [runFrom_succ_stub getResponse execute task_lean_code n msgs cur hcl]
      obtain ⟨ha, hb⟩ := ih (msgs ++ [⟨strL "assistant", getResponse msgs⟩,
        ⟨strL "user", stubFeedback⟩]) (parse_code_proof (getResponse msgs))
      exact ⟨Nat.succ_le_succ ha, Nat.succ_le_succ hb⟩
    · rw [runFrom_succ_hard getResponse execute task_lean_code n msgs cur hcl]
      obtain ⟨ha, hb⟩ := ih (msgs ++ [⟨strL "assistant", getResponse msgs⟩,
        ⟨strL "user", hardFeedback (execute (bindTemplate task_lean_code
          (parse_code_proof (getResponse msgs)).1 (parse_code_proof (getResponse msgs)).2))⟩])
        (parse_code_proof (getResponse msgs))
      exact ⟨Nat.succ_le_succ ha, Nat.succ_le_succ hb⟩

theorem runFrom_messages (getResponse : List Msg → List Char) (execute : List Char → List Char)
    (task_lean_code : List Char) :
    ∀ (n : Nat) (msgs : List Msg) (cur : List Char × List Char),
      ∃ ps : List (List Char × List Char),
        (runFrom getResponse execute task_lean_code n msgs cur).messages =
          msgs ++ (ps.map (fun q =>
            [Msg.mk (strL "assistant") q.1, Msg.mk (strL "user") q.2])).flatten ∧
        (runFrom getResponse execute task_lean_code n msgs cur).modelCalls =
          ps.length + (if (runFrom getResponse execute task_lean_code n msgs cur).succeeded
            then 1 else 0) ∧
        (runFrom getResponse execute task_lean_code n msgs cur).verifierCalls =
          (runFrom getResponse execute task_lean_code n msgs cur).modelCalls := by
  intro n
  induction n with
  | zero => intro msgs cur; exact ⟨[], by simp [runFrom]⟩
  | succ n ih =>
    intro msgs cur
    rcases hcl : classify (execute (bindTemplate task_lean_code
        (parse_code_proof (getResponse msgs)).1 (parse_code_proof (getResponse msgs)).2))
        (parse_code_proof (getResponse msgs)).1 (parse_code_proof (getResponse msgs)).2 with
      _ | _ | _
    · rw [runFrom_succ_success getResponse execute task_lean_code n msgs cur hcl]
      exact ⟨[], by simp⟩
    · rw [runFrom_succ_stub getResponse execute task_lean_code n msgs cur hcl]
      obtain ⟨ps, hmsg, hcount, hver⟩ := ih (msgs ++ [⟨strL "assistant", getResponse msgs⟩,
        ⟨strL "user", stubFeedback⟩]) (parse_code_proof (getResponse msgs))
      refine ⟨(getResponse msgs, stubFeedback) :: ps, ?_, ?_, ?_⟩
      · simpa [List.append_assoc] using hmsg
      · simp only [List.length_cons]
        omega
      · simpa using hver
    · rw [runFrom_succ_hard getResponse execute task_lean_code n msgs cur hcl]
      obtain ⟨ps, hmsg, hcount, hver⟩ := ih (msgs ++ [⟨strL "assistant", getResponse msgs⟩,
        ⟨strL "user", hardFeedback (execute (bindTemplate task_lean_code
          (parse_code_proof (getResponse msgs)).1 (parse_code_proof (getResponse msgs)).2))⟩])
        (parse_code_proof (getResponse msgs))
      refine ⟨(getResponse msgs, hardFeedback (execute (bindTemplate task_lean_code
        (parse_code_proof (getResponse msgs)).1
        (parse_code_proof (getResponse msgs)).2))) :: ps, ?_, ?_, ?_⟩
      · simpa [List.append_assoc] using hmsg
      · simp only [List.length_cons]
        omega
      · simpa using hver

/-! Remaining helper lemmas. -/

theorem drop_append_shift : ∀ (a z : List Char) (j : Nat),
    (a ++ z).drop (a.length + j) = z.drop j := by
  intro a
  induction a with
  | nil => intro z j; simp
  | cons c a ih =>
    intro z j
    rw [List.cons_append, List.length_cons]
    have he : a.length + 1 + j = (a.length + j) + 1 := by omega
    rw [he, List.drop_succ_cons, ih]

theorem orSentinel_ne_nil (s : List Char) : orSentinel s ≠ [] := by
  unfold orSentinel
  by_cases h : s.isEmpty = true
  · rw [if_pos h]
    decide
  · rw [if_neg h]
    cases s with
    | nil => simp at h
    | cons c rest => simp

theorem stubFeedback_ne_hardFeedback (x : List Char) : stubFeedback ≠ hardFeedback x := by
  intro h
  have h14 := congrArg (fun l : List Char => l[14]?) h
  simp only [hardFeedback] at h14
  rw [List.getElem?_append, if_pos (by
    rw [List.length_append]
    have h26 : (strL "Your solution had errors:\n").length = 26 := by decide
    omega)] at h14
  rw [List.getElem?_append, if_pos (by decide)] at h14
  exact absurd h14 (by decide)

/-! Claim theorems. -/

/-- C4: whenever the verifier text of the current attempt contains the
fixed success marker, the loop terminates immediately with that attempt's
candidate pair regardless of the candidate contents: the conversation is
left unchanged, exactly one model call and one verifier call are made, and
the success branch takes priority over the stub and hard-failure
branches. -/
theorem C4_success_priority (getResponse : List Msg → List Char)
    (execute : List Char → List Char) (task_lean_code : List Char)
    (n : Nat) (msgs : List Msg) (cur : List Char × List Char)
    (h : containsSub (execute (bindTemplate task_lean_code
        (parse_code_proof (getResponse msgs)).1 (parse_code_proof (getResponse msgs)).2))
        successMarker = true) :
    runFrom getResponse execute task_lean_code (n + 1) msgs cur =
      ⟨(parse_code_proof (getResponse msgs)).1, (parse_code_proof (getResponse msgs)).2,
        msgs, 1, 1, true⟩ :=
  runFrom_succ_success getResponse execute task_lean_code n msgs cur (by
    rw [classify, if_pos h])

/-- C4 witness: with a model that answers nothing (so both candidates are
the sentinel) and a verifier that reports success, the loop stops on the
first attempt with the sentinel pair. -/
theorem C4_success_priority_witness :
    runFrom (fun _ => []) (fun _ => successMarker) [] 3 [] ([], []) =
      ⟨sentinelTok, sentinelTok, [], 1, 1, true⟩ := by
  rw [C4_success_priority (fun _ => []) (fun _ => successMarker) [] 2 [] ([], []) (by decide)]
  decide

/-- C5: for every model behaviour, verifier behaviour, template and initial
conversation, the loop makes at most max_retries model calls and at most
max_retries verifier calls, max_retries is the fixed constant 3, and the
workflow is a total function returning a candidate pair. -/
theorem C5_bounded_calls (getResponse : List Msg → List Char)
    (execute : List Char → List Char) (task_lean_code : List Char)
    (initialMessages : List Msg) :
    (main_workflow getResponse execute task_lean_code initialMessages).modelCalls ≤
      max_retries ∧
    (main_workflow getResponse execute task_lean_code initialMessages).verifierCalls ≤
      max_retries ∧
    max_retries = 3 :=
  ⟨(runFrom_calls_le getResponse execute task_lean_code max_retries initialMessages
      (sentinelTok, sentinelTok)).1,
   (runFrom_calls_le getResponse execute task_lean_code max_retries initialMessages
      (sentinelTok, sentinelTok)).2,
   rfl⟩

/-- C6: a response in which neither the CODE: marker nor the PROOF: marker
occurs (case-insensitively) parses to exactly the sentinel pair, and in
general the parser is total and never produces an empty field in either
slot. -/
theorem C6_sentinel_default (r : List Char) :
    ((splitFirstCI (strL "code:") r = none ∧ splitFirstCI (strL "proof:") r = none) →
      parse_code_proof r = (sentinelTok, sentinelTok)) ∧
    (parse_code_proof r).1 ≠ [] ∧ (parse_code_proof r).2 ≠ [] := by
  refine ⟨?_, orSentinel_ne_nil _, orSentinel_ne_nil _⟩
  rintro ⟨h1, h2⟩
  unfold parse_code_proof extractCode extractProof
  rw [h1, h2]
  rfl

/-- C6 witness: a concrete marker-free response parses to the sentinel
pair, with both fields nonempty. -/
theorem C6_sentinel_default_witness :
    parse_code_proof (strL "no markers in sight") = (sentinelTok, sentinelTok) ∧
    (parse_code_proof (strL "no markers in sight")).1 ≠ [] :=
  ⟨(C6_sentinel_default (strL "no markers in sight")).1 ⟨by decide, by decide⟩,
   (C6_sentinel_default (strL "no markers in sight")).2.1⟩

/-- C9: the conversation is append-only: starting from any conversation the
loop returns a conversation that extends it, the appended block is a flat
list of assistant-response/user-feedback pairs in order, the number of
appended pairs equals the number of non-success iterations (the model-call
count minus one exactly when the run ended in success), and the verifier is
called once per model call. -/
theorem C9_conversation_append_only (getResponse : List Msg → List Char)
    (execute : List Char → List Char) (task_lean_code : List Char)
    (n : Nat) (msgs : List Msg) (cur : List Char × List Char) :
    ∃ ps : List (List Char × List Char),
      (runFrom getResponse execute task_lean_code n msgs cur).messages =
        msgs ++ (ps.map (fun q =>
          [Msg.mk (strL "assistant") q.1, Msg.mk (strL "user") q.2])).flatten ∧
      (runFrom getResponse execute task_lean_code n msgs cur).modelCalls =
        ps.length + (if (runFrom getResponse execute task_lean_code n msgs cur).succeeded
          then 1 else 0) ∧
      (runFrom getResponse execute task_lean_code n msgs cur).verifierCalls =
        (runFrom getResponse execute task_lean_code n msgs cur).modelCalls :=
  runFrom_messages getResponse execute task_lean_code n msgs cur

/-- C2: when the verifier text lacks the success marker and at least one
parsed field equals the sentinel token, the loop takes the stub branch
rather than the hard-failure branch: it appends exactly the raw assistant
response followed by the fixed user message demanding a complete non-stub
solution, and that stub message differs from every hard-failure message. -/
theorem C2_stub_branch (getResponse : List Msg → List Char)
    (execute : List Char → List Char) (task_lean_code : List Char)
    (n : Nat) (msgs : List Msg) (cur : List Char × List Char)
    (h1 : containsSub (execute (bindTemplate task_lean_code
        (parse_code_proof (getResponse msgs)).1 (parse_code_proof (getResponse msgs)).2))
        successMarker = false)
    (h2 : (parse_code_proof (getResponse msgs)).1 = sentinelTok ∨
        (parse_code_proof (getResponse msgs)).2 = sentinelTok) :
    runFrom getResponse execute task_lean_code (n + 1) msgs cur =
      ⟨(runFrom getResponse execute task_lean_code n
          (msgs ++ [⟨strL "assistant", getResponse msgs⟩, ⟨strL "user", stubFeedback⟩])
          (parse_code_proof (getResponse msgs))).code,
        (runFrom getResponse execute task_lean_code n
          (msgs ++ [⟨strL "assistant", getResponse msgs⟩, ⟨strL "user", stubFeedback⟩])
          (parse_code_proof (getResponse msgs))).proof,
        (runFrom getResponse execute task_lean_code n
          (msgs ++ [⟨strL "assistant", getResponse msgs⟩, ⟨strL "user", stubFeedback⟩])
          (parse_code_proof (getResponse msgs))).messages,
        (runFrom getResponse execute task_lean_code n
          (msgs ++ [⟨strL "assistant", getResponse msgs⟩, ⟨strL "user", stubFeedback⟩])
          (parse_code_proof (getResponse msgs))).modelCalls + 1,
        (runFrom getResponse execute task_lean_code n
          (msgs ++ [⟨strL "assistant", getResponse msgs⟩, ⟨strL "user", stubFeedback⟩])
          (parse_code_proof (getResponse msgs))).verifierCalls + 1,
        (runFrom getResponse execute task_lean_code n
          (msgs ++ [⟨strL "assistant", getResponse msgs⟩, ⟨strL "user", stubFeedback⟩])
          (parse_code_proof (getResponse msgs))).succeeded⟩ ∧
      (∀ x : List Char, stubFeedback ≠ hardFeedback x) := by
  refine ⟨runFrom_succ_stub getResponse execute task_lean_code n msgs cur ?_,
    stubFeedback_ne_hardFeedback⟩
  rw [classify, if_neg (by simp [h1])]
  rcases h2 with h2 | h2 <;> rw [h2] <;>
    simp [show containsSub sentinelTok sentinelTok = true from by decide]

/-- C2 witness: a model answering nothing yields the sentinel pair, an
empty verifier answer lacks the success marker, and one loop step appends
the assistant response and the stub feedback message. -/
theorem C2_stub_branch_witness :
    runFrom (fun _ => []) (fun _ => []) [] 1 [] ([], []) =
      ⟨sentinelTok, sentinelTok,
        [⟨strL "assistant", []⟩, ⟨strL "user", stubFeedback⟩], 1, 1, false⟩ := by
  rw [(C2_stub_branch (fun _ => []) (fun _ => []) [] 0 [] ([], [])
    (by decide) (Or.inl (by decide))).1]
  decide

/-- C1 counterexample: Python replace substitutes every occurrence, so on a
template that holds the code marker twice both occurrences are replaced;
under the claim the second occurrence would be left byte-identical, giving
a different result. -/
theorem C1_counterexample :
    bindTemplate (strL "\x7b\x7bcode\x7d\x7d \x7b\x7bcode\x7d\x7d") (strL "x") (strL "p") =
      strL "x x" ∧
    bindTemplate (strL "\x7b\x7bcode\x7d\x7d \x7b\x7bcode\x7d\x7d") (strL "x") (strL "p") ≠
      strL "x \x7b\x7bcode\x7d\x7d" := by
  decide

/-- C1 (amended): on templates where each placeholder marker occurs exactly
once (no occurrence of the code marker starts elsewhere, and no occurrence
of the proof marker starts elsewhere after the code candidate is in place),
bind replaces that single occurrence of each marker with the corresponding
candidate and leaves all other template text byte-identical; in general
bind replaces every occurrence of a marker. -/
theorem C1_bind_single_occurrence (pre mid post code proof : List Char)
    (h1 : ∀ i, i < pre.length → (strL "\x7b\x7bcode\x7d\x7d").isPrefixOf
        ((pre ++ (strL "\x7b\x7bcode\x7d\x7d" ++
          (mid ++ (strL "\x7b\x7bproof\x7d\x7d" ++ post)))).drop i) = false)
    (h2 : containsSub (mid ++ (strL "\x7b\x7bproof\x7d\x7d" ++ post))
        (strL "\x7b\x7bcode\x7d\x7d") = false)
    (h3 : ∀ i, i < pre.length + code.length + mid.length →
        (strL "\x7b\x7bproof\x7d\x7d").isPrefixOf
        ((pre ++ (code ++ (mid ++ (strL "\x7b\x7bproof\x7d\x7d" ++ post)))).drop i) = false)
    (h4 : containsSub post (strL "\x7b\x7bproof\x7d\x7d") = false) :
    bindTemplate
        (pre ++ (strL "\x7b\x7bcode\x7d\x7d" ++ (mid ++ (strL "\x7b\x7bproof\x7d\x7d" ++ post))))
        code proof =
      pre ++ (code ++ (mid ++ (proof ++ post))) := by
  have hcm : (strL "\x7b\x7bcode\x7d\x7d") ≠ ([] : List Char) := by decide
  have hpm : (strL "\x7b\x7bproof\x7d\x7d") ≠ ([] : List Char) := by decide
  rw [bindTemplate]
  rw [replaceAll_append_of_no_occur _ code hcm pre _ h1]
  rw [replaceAll_at_match _ code hcm]
  rw [replaceAll_no_occur _ code _ h2]
  have hre : pre ++ (code ++ (mid ++ (strL "\x7b\x7bproof\x7d\x7d" ++ post))) =
      ((pre ++ code) ++ mid) ++ (strL "\x7b\x7bproof\x7d\x7d" ++ post) := by
    simp [List.append_assoc]
  rw [hre]
  rw [replaceAll_append_of_no_occur _ proof hpm ((pre ++ code) ++ mid) _ (fun i hi => by
    rw [← hre]
    refine h3 i ?_
    simp only [List.length_append] at hi
    omega)]
  rw [replaceAll_at_match _ proof hpm]
  rw [replaceAll_no_occur _ proof _ h4]
  simp [List.append_assoc]

/-- C1 witness: a template with one code slot and one proof slot binds to
the template text with the two candidates substituted in place. -/
theorem C1_bind_single_occurrence_witness :
    bindTemplate
        (strL "A " ++ (strL "\x7b\x7bcode\x7d\x7d" ++
          (strL " M " ++ (strL "\x7b\x7bproof\x7d\x7d" ++ strL " Z"))))
        (strL "x+1") (strL "rfl") =
      strL "A " ++ (strL "x+1" ++ (strL " M " ++ (strL "rfl" ++ strL " Z"))) :=
  C1_bind_single_occurrence (strL "A ") (strL " M ") (strL " Z") (strL "x+1") (strL "rfl")
    (by decide) (by decide) (by decide) (by decide)

/-- C10: binding substitutes the code candidate first and the proof
candidate second, so a proof marker occurring inside the code candidate is
itself replaced by the proof candidate in the final bound text, alongside
the template's own proof slot. -/
theorem C10_code_before_proof (pre mid post c1 c2 proof : List Char)
    (h1 : ∀ i, i < pre.length → (strL "\x7b\x7bcode\x7d\x7d").isPrefixOf
        ((pre ++ (strL "\x7b\x7bcode\x7d\x7d" ++
          (mid ++ (strL "\x7b\x7bproof\x7d\x7d" ++ post)))).drop i) = false)
    (h2 : containsSub (mid ++ (strL "\x7b\x7bproof\x7d\x7d" ++ post))
        (strL "\x7b\x7bcode\x7d\x7d") = false)
    (h3 : ∀ i, i < pre.length + c1.length → (strL "\x7b\x7bproof\x7d\x7d").isPrefixOf
        ((pre ++ (c1 ++ (strL "\x7b\x7bproof\x7d\x7d" ++
          (c2 ++ (mid ++ (strL "\x7b\x7bproof\x7d\x7d" ++ post)))))).drop i) = false)
    (h4 : ∀ i, i < c2.length + mid.length → (strL "\x7b\x7bproof\x7d\x7d").isPrefixOf
        ((c2 ++ (mid ++ (strL "\x7b\x7bproof\x7d\x7d" ++ post))).drop i) = false)
    (h5 : containsSub post (strL "\x7b\x7bproof\x7d\x7d") = false) :
    bindTemplate
        (pre ++ (strL "\x7b\x7bcode\x7d\x7d" ++ (mid ++ (strL "\x7b\x7bproof\x7d\x7d" ++ post))))
        (c1 ++ (strL "\x7b\x7bproof\x7d\x7d" ++ c2)) proof =
      pre ++ (c1 ++ (proof ++ (c2 ++ (mid ++ (proof ++ post))))) := by
  have hcm : (strL "\x7b\x7bcode\x7d\x7d") ≠ ([] : List Char) := by decide
  have hpm : (strL "\x7b\x7bproof\x7d\x7d") ≠ ([] : List Char) := by decide
  rw [bindTemplate]
  rw [replaceAll_append_of_no_occur _ (c1 ++ (strL "\x7b\x7bproof\x7d\x7d" ++ c2)) hcm pre _ h1]
  rw [replaceAll_at_match _ _ hcm]
  rw [replaceAll_no_occur _ _ _ h2]
  have hre : pre ++ ((c1 ++ (strL "\x7b\x7bproof\x7d\x7d" ++ c2)) ++
      (mid ++ (strL "\x7b\x7bproof\x7d\x7d" ++ post))) =
      (pre ++ c1) ++ (strL "\x7b\x7bproof\x7d\x7d" ++
        (c2 ++ (mid ++ (strL "\x7b\x7bproof\x7d\x7d" ++ post)))) := by
    simp [List.append_assoc]
  rw [hre]
  rw [replaceAll_append_of_no_occur _ proof hpm (pre ++ c1) _ (fun i hi => by
    rw [← hre]
    have hi2 : i < pre.length + c1.length := by
      simpa [List.length_append] using hi
    have := h3 i hi2
    simpa [List.append_assoc] using this)]
  rw [replaceAll_at_match _ proof hpm]
  have hre2 : c2 ++ (mid ++ (strL "\x7b\x7bproof\x7d\x7d" ++ post)) =
      (c2 ++ mid) ++ (strL "\x7b\x7bproof\x7d\x7d" ++ post) := by
    simp [List.append_assoc]
  rw [hre2]
  rw [replaceAll_append_of_no_occur _ proof hpm (c2 ++ mid) _ (fun i hi => by
    rw [← hre2]
    refine h4 i ?_
    simpa [List.length_append] using hi)]
  rw [replaceAll_at_match _ proof hpm]
  rw [replaceAll_no_occur _ proof _ h5]
  simp [List.append_assoc]

/-- C10 witness: a code candidate containing the literal proof marker has
that occurrence replaced by the proof candidate as well. -/
theorem C10_code_before_proof_witness :
    bindTemplate
        (strL "A " ++ (strL "\x7b\x7bcode\x7d\x7d" ++
          (strL " M " ++ (strL "\x7b\x7bproof\x7d\x7d" ++ strL " Z"))))
        (strL "f(" ++ (strL "\x7b\x7bproof\x7d\x7d" ++ strL ")")) (strL "rfl") =
      strL "A " ++ (strL "f(" ++ (strL "rfl" ++ (strL ")" ++
        (strL " M " ++ (strL "rfl" ++ strL " Z"))))) :=
  C10_code_before_proof (strL "A ") (strL " M ") (strL " Z") (strL "f(") (strL ")") (strL "rfl")
    (by decide) (by decide) (by decide) (by decide) (by decide)

/-- C3 counterexample: the regexes allow whitespace before the glyph, so
the line " . x", which does not begin with a period or a bullet glyph (it
begins with a space), is nevertheless rewritten instead of being left
untouched as the claim requires. -/
theorem C3_counterexample :
    normalizeBullets (strL " . x") = strL "· x" ∧
    normalizeBullets (strL " . x") ≠ strL " . x" := by
  decide

/-- C3 (amended): on proof text whose lines are nonempty, start with a
non-whitespace character, and keep non-whitespace material after a leading
glyph, bullet normalization acts line by line: a line beginning with a
period or a bullet glyph followed by optional whitespace is rewritten to
the canonical bullet, exactly one space, and the rest of the line, and
every other line is untouched. In general the whitespace classes of the
patterns span newlines, so leading whitespace is consumed and blank or
whitespace-led material can be merged across line breaks. -/
theorem C3_bullet_linewise (ls : List (List Char)) (h : ∀ l ∈ ls, lineOKb l = true) :
    normalizeBullets (joinLines ls) = joinLines (ls.map lineNorm) :=
  normalizeBullets_joinLines ls h

/-- C3 witness: a three-line proof with one bullet line and one dotted line
is normalized linewise. -/
theorem C3_bullet_linewise_witness :
    normalizeBullets (joinLines [strL "have h", strL "·   exact h", strL ". simp"]) =
      joinLines [strL "have h", strL "· exact h", strL "· simp"] := by
  rw [C3_bullet_linewise [strL "have h", strL "·   exact h", strL ". simp"] (by decide)]
  decide

/-- C7: section extraction is case-insensitive, keyed to the first
occurrence of each marker, and each match is optional. For any casing of
the markers: with both markers present, the code span is the text between
the first code marker and the first following proof marker and the proof
span is everything after the first proof marker, to the end of the text;
with only the code marker present, the code span runs non-greedily to the
end of the text and the proof span is empty; with a marker absent, the
corresponding span is empty. -/
theorem C7_extraction :
    (∀ a m1 b m2 c : List Char,
      m1.map Char.toLower = strL "code:" →
      m2.map Char.toLower = strL "proof:" →
      (∀ i, i < a.length → startsWithCI (strL "code:")
        ((a ++ (m1 ++ (b ++ (m2 ++ c)))).drop i) = false) →
      (∀ j, j < a.length + m1.length + b.length → startsWithCI (strL "proof:")
        ((a ++ (m1 ++ (b ++ (m2 ++ c)))).drop j) = false) →
      extractCode (a ++ (m1 ++ (b ++ (m2 ++ c)))) = b ∧
      extractProof (a ++ (m1 ++ (b ++ (m2 ++ c)))) = c) ∧
    (∀ a m1 b : List Char,
      m1.map Char.toLower = strL "code:" →
      (∀ i, i < a.length → startsWithCI (strL "code:")
        ((a ++ (m1 ++ b)).drop i) = false) →
      (∀ i, i < (a ++ (m1 ++ b)).length → startsWithCI (strL "proof:")
        ((a ++ (m1 ++ b)).drop i) = false) →
      extractCode (a ++ (m1 ++ b)) = b ∧
      extractProof (a ++ (m1 ++ b)) = []) ∧
    (∀ r : List Char,
      (∀ i, i < r.length → startsWithCI (strL "code:") (r.drop i) = false) →
      extractCode r = []) ∧
    (∀ r : List Char,
      (∀ i, i < r.length → startsWithCI (strL "proof:") (r.drop i) = false) →
      extractProof r = []) := by
  refine ⟨?_, ?_, ?_, ?_⟩
  · intro a m1 b m2 c hm1 hm2 hA hB
    have hlen1 : m1.length = (strL "code:").length := by
      rw [← hm1, List.length_map]
    have hlen2 : m2.length = (strL "proof:").length := by
      rw [← hm2, List.length_map]
    have hs1 : startsWithCI (strL "code:") (m1 ++ (b ++ (m2 ++ c))) = true := by
      have := startsWithCI_map_toLower m1 (b ++ (m2 ++ c))
      rwa [hm1] at this
    have hs2 : startsWithCI (strL "proof:") (m2 ++ c) = true := by
      have := startsWithCI_map_toLower m2 c
      rwa [hm2] at this
    have hsplit1 : splitFirstCI (strL "code:") (a ++ (m1 ++ (b ++ (m2 ++ c)))) =
        some (a, b ++ (m2 ++ c)) := by
      have := splitFirstCI_append (strL "code:") a (m1 ++ (b ++ (m2 ++ c))) hA hs1
      rwa [← hlen1, List.drop_left] at this
    have hBin : ∀ i, i < b.length → startsWithCI (strL "proof:")
        ((b ++ (m2 ++ c)).drop i) = false := by
      intro i hi
      have hj := hB (a.length + (m1.length + i)) (by omega)
      rwa [drop_append_shift, drop_append_shift] at hj
    have hsplit2 : splitFirstCI (strL "proof:") (b ++ (m2 ++ c)) = some (b, c) := by
      have := splitFirstCI_append (strL "proof:") b (m2 ++ c) hBin hs2
      rwa [← hlen2, List.drop_left] at this
    have hBout : ∀ i, i < ((a ++ (m1 ++ b)) ++ (m2 ++ c)).length - (m2 ++ c).length →
        startsWithCI (strL "proof:") (((a ++ (m1 ++ b)) ++ (m2 ++ c)).drop i) = false := by
      intro i hi
      simp only [List.append_assoc]
      refine hB i ?_
      simp only [List.length_append] at hi
      omega
    have hsplit3 : splitFirstCI (strL "proof:") (a ++ (m1 ++ (b ++ (m2 ++ c)))) =
        some (a ++ (m1 ++ b), c) := by
      have := splitFirstCI_append (strL "proof:") (a ++ (m1 ++ b)) (m2 ++ c)
        (fun i hi => hBout i (by
          simp only [List.length_append] at hi ⊢
          omega)) hs2
      rw [← hlen2, List.drop_left] at this
      rw [← this]
      simp [List.append_assoc]
    constructor
    · unfold extractCode
      rw [hsplit1]
      dsimp only
      rw [hsplit2]
    · unfold extractProof
      rw [hsplit3]
  · intro a m1 b hm1 hA hNoP
    have hlen1 : m1.length = (strL "code:").length := by
      rw [← hm1, List.length_map]
    have hs1 : startsWithCI (strL "code:") (m1 ++ b) = true := by
      have := startsWithCI_map_toLower m1 b
      rwa [hm1] at this
    have hsplit1 : splitFirstCI (strL "code:") (a ++ (m1 ++ b)) = some (a, b) := by
      have := splitFirstCI_append (strL "code:") a (m1 ++ b) hA hs1
      rwa [← hlen1, List.drop_left] at this
    have hbin : ∀ i, i < b.length → startsWithCI (strL "proof:") (b.drop i) = false := by
      intro i hi
      have hj := hNoP (a.length + (m1.length + i)) (by
        simp only [List.length_append]
        omega)
      rwa [drop_append_shift, drop_append_shift] at hj
    have hsplit2 : splitFirstCI (strL "proof:") b = none :=
      splitFirstCI_none_of_no_occur (strL "proof:") (by decide) b hbin
    have hsplit3 : splitFirstCI (strL "proof:") (a ++ (m1 ++ b)) = none :=
      splitFirstCI_none_of_no_occur (strL "proof:") (by decide) _ hNoP
    constructor
    · unfold extractCode
      rw [hsplit1]
      dsimp only
      rw [hsplit2]
    · unfold extractProof
      rw [hsplit3]
  · intro r hno
    have h := splitFirstCI_none_of_no_occur (strL "code:") (by decide) r hno
    unfold extractCode
    rw [h]
  · intro r hno
    have h := splitFirstCI_none_of_no_occur (strL "proof:") (by decide) r hno
    unfold extractProof
    rw [h]

/-- C7 witness: mixed-case markers are recognized and the code span stops
at the proof marker; with only a code marker the code span runs to the end
of the text and the proof span is empty; with a marker absent the
corresponding span is empty. -/
theorem C7_extraction_witness :
    (extractCode (strL "hi " ++ (strL "Code:" ++ (strL " y " ++ (strL "pRoOf:" ++ strL " z")))) =
        strL " y " ∧
      extractProof (strL "hi " ++ (strL "Code:" ++ (strL " y " ++ (strL "pRoOf:" ++ strL " z")))) =
        strL " z") ∧
    (extractCode (strL "hi " ++ (strL "cOdE:" ++ strL " tail text")) = strL " tail text" ∧
      extractProof (strL "hi " ++ (strL "cOdE:" ++ strL " tail text")) = []) ∧
    extractCode (strL "no markers at all") = [] ∧
    extractProof (strL "only CODE: is here") = [] :=
  ⟨C7_extraction.1 (strL "hi ") (strL "Code:") (strL " y ") (strL "pRoOf:") (strL " z")
      (by decide) (by decide) (by decide) (by decide),
   C7_extraction.2.1 (strL "hi ") (strL "cOdE:") (strL " tail text")
      (by decide) (by decide) (by decide),
   C7_extraction.2.2.1 (strL "no markers at all") (by decide),
   C7_extraction.2.2.2 (strL "only CODE: is here") (by decide)⟩

/-- C8 counterexample: stripping happens before fence removal, so removing
a trailing fence can expose trailing whitespace in the parsed code; parsing
the reassembled text strips that whitespace, so re-parsing changes the
pair. -/
theorem C8_counterexample :
    parse_code_proof (strL "CODE:\na\n```lean\nPROOF:\nrfl") = (strL "a\n", strL "rfl") ∧
    parse_code_proof (reassemble (parse_code_proof (strL "CODE:\na\n```lean\nPROOF:\nrfl"))) ≠
      parse_code_proof (strL "CODE:\na\n```lean\nPROOF:\nrfl") := by
  decide

/-- C8 (amended): re-parsing the reassembled text CODE: code PROOF: proof
returns the pair unchanged whenever both fields are nonempty fixed points
of the parser's per-field normalization and no case-insensitive occurrence
of the proof marker starts inside the code field (including occurrences
straddling into the appended marker); without those conditions re-parsing
can change the pair. -/
theorem C8_reparse_fixed_point (c p : List Char)
    (hc : normCode c = c) (hcne : c ≠ [])
    (hp : normProof p = p) (hpne : p ≠ [])
    (hnos : ∀ i, i < c.length →
      startsWithCI (strL "proof:") ((c ++ (strL "PROOF:" ++ p)).drop i) = false) :
    parse_code_proof (reassemble (c, p)) = (c, p) := by
  have hmC : (strL "CODE:").map Char.toLower = strL "code:" := by decide
  have hmP : (strL "PROOF:").map Char.toLower = strL "proof:" := by decide
  have hlenC : (strL "code:").length = (strL "CODE:").length := by decide
  have hlenP : (strL "proof:").length = (strL "PROOF:").length := by decide
  have hre : reassemble (c, p) = strL "CODE:" ++ (c ++ (strL "PROOF:" ++ p)) := by
    simp [reassemble, List.append_assoc]
  have hsp : startsWithCI (strL "proof:") (strL "PROOF:" ++ p) = true := by
    have := startsWithCI_map_toLower (strL "PROOF:") p
    rwa [hmP] at this
  have hsplitP : splitFirstCI (strL "proof:") (c ++ (strL "PROOF:" ++ p)) = some (c, p) := by
    have := splitFirstCI_append (strL "proof:") c (strL "PROOF:" ++ p) hnos hsp
    rwa [hlenP, List.drop_left] at this
  have hsc : startsWithCI (strL "code:") (strL "CODE:" ++ (c ++ (strL "PROOF:" ++ p))) = true := by
    have := startsWithCI_map_toLower (strL "CODE:") (c ++ (strL "PROOF:" ++ p))
    rwa [hmC] at this
  have hsplitC : splitFirstCI (strL "code:") (strL "CODE:" ++ (c ++ (strL "PROOF:" ++ p))) =
      some ([], c ++ (strL "PROOF:" ++ p)) := by
    have := splitFirstCI_append (strL "code:") [] (strL "CODE:" ++ (c ++ (strL "PROOF:" ++ p)))
      (fun i hi => by simp at hi) hsc
    simp only [List.nil_append] at this
    rwa [hlenC, List.drop_left] at this
  have hall : ∀ i, i < (strL "CODE:" ++ c).length →
      startsWithCI (strL "proof:") (((strL "CODE:" ++ c) ++ (strL "PROOF:" ++ p)).drop i) =
        false := by
    intro i hi
    rw [List.length_append, show (strL "CODE:").length = 5 from by decide] at hi
    rw [List.append_assoc]
    by_cases hlt : i < 5
    · interval_cases i <;> rfl
    · obtain ⟨j, rfl⟩ : ∃ j, i = (strL "CODE:").length + j :=
        ⟨i - 5, by rw [show (strL "CODE:").length = 5 from by decide]; omega⟩
      rw [drop_append_shift]
      refine hnos j ?_
      rw [show (strL "CODE:").length = 5 from by decide] at hi
      omega
  have hsplitP2 : splitFirstCI (strL "proof:") (strL "CODE:" ++ (c ++ (strL "PROOF:" ++ p))) =
      some (strL "CODE:" ++ c, p) := by
    have := splitFirstCI_append (strL "proof:") (strL "CODE:" ++ c) (strL "PROOF:" ++ p)
      hall hsp
    rw [hlenP, List.drop_left] at this
    rw [← this]
    simp [List.append_assoc]
  have hcie : c.isEmpty = false := by
    cases c with
    | nil => exact absurd rfl hcne
    | cons q qs => rfl
  have hpie : p.isEmpty = false := by
    cases p with
    | nil => exact absurd rfl hpne
    | cons q qs => rfl
  unfold parse_code_proof extractCode extractProof
  rw [hre, hsplitC]
  dsimp only
  rw [hsplitP, hsplitP2]
  dsimp only
  rw [hc, hp]
  simp [orSentinel, hcie, hpie]

/-- C8 witness: the pair of a plain expression and a plain tactic is a
fixed point, and re-parsing its reassembly returns it unchanged. -/
theorem C8_reparse_fixed_point_witness :
    parse_code_proof (reassemble (strL "x+1", strL "rfl")) = (strL "x+1", strL "rfl") :=
  C8_reparse_fixed_point (strL "x+1") (strL "rfl")
    (by decide) (by decide) (by decide) (by decide) (by decide)
